import Mathlib

/-!
Shallow embedding of the paginated substring search engine of the mcp-osrs
server (source file `src/index.ts`): the `searchFile` function (search-term
normalization, line scan, pagination, record formatting), together with
`getFileLineCount` / `getFileDetails`.

Strings are modelled as `List Char` (JS strings are finite character
sequences; every operation used by the code is character-wise).  A file is
modelled either as its list of lines (as delivered by `readline`, terminators
stripped) or, for the line-count tool which reads the raw bytes, as its raw
character content.  What a `searchFile` call observes of the filesystem — a
missing path, a successful scan, or a mid-scan stream failure — is a
`FileState`.
-/

/-- A string, modelled as its list of characters. -/
abbrev Str := List Char

/-- Characters matched by the JavaScript regexp class `\s` (the ASCII ones,
which are the only ones the data files and our inputs contain). -/
def isWsChar (c : Char) : Bool :=
  c = ' ' || c = '\t' || c = '\n' || c = '\r' || c = '\x0b' || c = '\x0c'

/-- Lowercasing, modelling `String.prototype.toLowerCase`. -/
def toLowerStr (s : Str) : Str := s.map Char.toLower

/-- Does `s` start with `p`?  (Character-wise prefix test.) -/
def startsWithStr : Str → Str → Bool
  | [], _ => true
  | _ :: _, [] => false
  | a :: as, b :: bs => a == b && startsWithStr as bs

/-- Substring containment, modelling `String.prototype.includes`:
`containsStr p s` is true iff `p` occurs contiguously inside `s`
(always true for `p = []`, as in JS). -/
def containsStr (p : Str) : Str → Bool
  | [] => startsWithStr p []
  | c :: cs => startsWithStr p (c :: cs) || containsStr p cs

/-- `searchTerm.replace(" ", "_")`: JS `replace` with a string pattern
replaces only the FIRST occurrence of the single-character pattern `" "`. -/
def replaceFirstSpace : Str → Str
  | [] => []
  | c :: cs => if c = ' ' then '_' :: cs else c :: replaceFirstSpace cs

/-- The per-line match test of `searchFile`:
`line.toLowerCase().includes(searchTerm.toLowerCase())`
(the term passed here is already space-normalized). -/
def lineMatches (term line : Str) : Bool :=
  containsStr (toLowerStr term) (toLowerStr line)

/-- One match produced by the scan: `{ line, lineNumber }`, 1-based. -/
structure MatchRecord where
  line : Str
  lineNumber : Nat
deriving DecidableEq, Repr

/-- The `rl.on('line', ...)` loop of `searchFile`: walk the lines, keeping a
running line counter `n` (number of lines already consumed); each line gets
number `n + 1` and is kept iff it passes `lineMatches`. -/
def scanLines (term : Str) : List Str → Nat → List MatchRecord
  | [], _ => []
  | l :: ls, n =>
    if lineMatches term l then ⟨l, n + 1⟩ :: scanLines term ls (n + 1)
    else scanLines term ls (n + 1)

/-- Is the first character of `s` JS-whitespace? (`false` for `[]`.) -/
def headIsWs : Str → Bool
  | [] => false
  | c :: _ => isWsChar c

/-- `line.split(/\s+/)`: split at maximal runs of whitespace.  As in JS, an
empty piece appears at the front when the string starts with whitespace and
at the back when it ends with whitespace, and `"".split(/\s+/) = [""]`. -/
def splitWs : Str → List Str
  | [] => [[]]
  | c :: cs =>
    let r := splitWs cs
    if isWsChar c then
      if headIsWs cs then r else [] :: r
    else
      match r with
      | [] => [[c]]
      | p :: ps => (c :: p) :: ps

/-- `parts.join(' ')`: join pieces with single spaces. -/
def joinSpace (ps : List Str) : Str := List.intercalate [' '] ps

/-- The formatted shape of one result: either the raw match record passed
through unchanged, or the record enriched with `id`, `value` and
`formatted` fields. -/
inductive FormattedRecord where
  | plain (r : MatchRecord)
  | enriched (r : MatchRecord) (id value formatted : Str)
deriving DecidableEq, Repr

/-- The per-result formatter inside `searchFile`'s close handler:
split the line on `/\s+/`; when the split has at least two pieces, emit
`{...result, id: parts[0], value: parts.slice(1).join(' '),
formatted: id + "\t" + value}`, otherwise pass the record through. -/
def formatRecord (r : MatchRecord) : FormattedRecord :=
  match splitWs r.line with
  | p :: q :: rest =>
    .enriched r p (joinSpace (q :: rest)) (p ++ '\t' :: joinSpace (q :: rest))
  | _ => .plain r

/-- `Math.ceil(totalResults / pageSize)` on naturals (pageSize ≥ 1 by the
argument schema). -/
def ceilDiv (a b : Nat) : Nat := (a + b - 1) / b

/-- `array.slice(start, stop)` for in-range nonnegative indices. -/
def jsSlice (l : List α) (start stop : Nat) : List α :=
  (l.drop start).take (stop - start)

/-- The slice shown on page `p` (1-based), exactly as the close handler
computes it: `results.slice((p-1)*pageSize, (p-1)*pageSize + pageSize)`. -/
def pageSlice (l : List α) (p S : Nat) : List α :=
  jsSlice l ((p - 1) * S) ((p - 1) * S + S)

/-- The pagination metadata of a `PageResult`. -/
structure Pagination where
  page : Nat
  pageSize : Nat
  totalResults : Nat
  totalPages : Nat
  hasNextPage : Bool
  hasPreviousPage : Bool
deriving DecidableEq, Repr

/-- The value `searchFile` resolves with. -/
structure PageResult where
  results : List FormattedRecord
  pagination : Pagination
deriving DecidableEq, Repr

/-- The close handler of `searchFile`: given the full match list, slice out
the requested page, format the selected slice, and assemble the pagination
metadata. -/
def assemblePage (results : List MatchRecord) (page pageSize : Nat) : PageResult :=
  let totalResults := results.length
  let totalPages := ceilDiv totalResults pageSize
  let startIndex := (page - 1) * pageSize
  let endIndex := startIndex + pageSize
  let paginatedResults := jsSlice results startIndex endIndex
  let formattedResults := paginatedResults.map formatRecord
  { results := formattedResults
    pagination :=
      { page := page
        pageSize := pageSize
        totalResults := totalResults
        totalPages := totalPages
        hasNextPage := decide (page < totalPages)
        hasPreviousPage := decide (1 < page) } }

/-- The full match list a call of `searchFile` collects for a file given as
its lines: normalize the search term (first space → underscore), then scan
from line counter 0. -/
def matchLines (lines : List Str) (searchTerm : Str) : List MatchRecord :=
  scanLines (replaceFirstSpace searchTerm) lines 0

/-- The successful path of `searchFile` on a file given as its lines:
collect the match list, then paginate and format in the close handler. -/
def searchFileLines (lines : List Str) (searchTerm : Str) (page pageSize : Nat) :
    PageResult :=
  assemblePage (matchLines lines searchTerm) page pageSize

/-- The failure taxonomy of `searchFile`: the `fs.existsSync` check rejects
with `FileNotFound`; a read-stream failure after it (`rl.on('error')`)
rejects with `IOError`. -/
inductive SearchError where
  | fileNotFound
  | ioError
deriving DecidableEq, Repr

/-- What one `searchFile` call observes of the target path: the path does
not exist (`fs.existsSync` is false), or the file exists and the line
stream delivers these lines and closes, or the file exists but the read
stream fails mid-scan (`rl.on('error')` fires). -/
inductive FileState where
  | missing
  | readable (lines : List Str)
  | readError
deriving DecidableEq, Repr

/-- `searchFile` at the boundary: the existence check runs before any
scanning and rejects with `FileNotFound`; a mid-scan stream failure rejects
with `IOError`, discarding any partial results; otherwise the close handler
resolves with a `PageResult`. -/
def searchFile (file : FileState) (searchTerm : Str) (page pageSize : Nat) :
    Except SearchError PageResult :=
  match file with
  | .missing => .error .fileNotFound
  | .readError => .error .ioError
  | .readable lines => .ok (searchFileLines lines searchTerm page pageSize)

/-- `content.split('\n')`: split at every newline character, keeping empty
pieces (JS single-character string separator; `"".split('\n') = [""]`). -/
def splitNl : Str → List Str
  | [] => [[]]
  | c :: cs =>
    let r := splitNl cs
    if c = '\n' then [] :: r
    else
      match r with
      | [] => [[c]]
      | p :: ps => (c :: p) :: ps

/-- `getFileLineCount`: read the whole file and return
`content.split('\n').length`. -/
def getFileLineCount (content : Str) : Nat := (splitNl content).length

/-- The slice of `getFileDetails` visible to the line-count claim: `none`
when the file does not exist, otherwise the reported `lineCount`. -/
def getFileDetails (file : Option Str) : Option Nat :=
  file.map getFileLineCount

/-- Whitespace-separated tokens of a line, as the spec's prose means them:
the maximal nonempty runs of non-whitespace characters.  (Spec-side notion,
used to state the formatter claim; the code's own split is `splitWs`.) -/
def wsTokens : Str → List Str
  | [] => []
  | c :: cs =>
    let r := wsTokens cs
    if isWsChar c then r
    else if headIsWs cs then [c] :: r
    else
      match r with
      | [] => [[c]]
      | t :: ts => (c :: t) :: ts

/-- The Paginator as §4.3 of the spec words it: a pure function from the
full ordered (already formatted) sequence and a page request to the slice
`matches[(page-1)*pageSize : (page-1)*pageSize + pageSize]` plus the
pagination metadata.  (Spec-side definition for the refinement claim.) -/
def paginate (l : List FormattedRecord) (page pageSize : Nat) : PageResult :=
  let totalResults := l.length
  let totalPages := ceilDiv totalResults pageSize
  { results := jsSlice l ((page - 1) * pageSize) ((page - 1) * pageSize + pageSize)
    pagination :=
      { page := page
        pageSize := pageSize
        totalResults := totalResults
        totalPages := totalPages
        hasNextPage := decide (page < totalPages)
        hasPreviousPage := decide (1 < page) } }

-- Sanity checks against the JS semantics (concrete evaluations).
example : splitWs [' '] = [[], []] := by decide
example : splitWs ['a', ' ', ' ', 'b'] = [['a'], ['b']] := by decide
example : splitWs [' ', 'a'] = [[], ['a']] := by decide
example : splitWs ['a', ' '] = [['a'], []] := by decide
example : splitWs [] = [[]] := by decide
example : wsTokens [' ', 'a', ' ', 'b', 'b'] = [['a'], ['b', 'b']] := by decide
example : wsTokens [' '] = [] := by decide
example : replaceFirstSpace ['a', ' ', 'b', ' ', 'c'] = ['a', '_', 'b', ' ', 'c'] := by
  decide
example : containsStr ['b', 'c'] ['a', 'b', 'c', 'd'] = true := by decide
example : containsStr [] [] = true := by decide
example : splitNl ['a', '\n'] = [['a'], []] := by decide
example : getFileLineCount [] = 1 := by decide

/-! ### Helper lemmas about the scanner -/

theorem scanLines_eq_enumFrom (t : Str) (lines : List Str) (n : Nat) :
    scanLines t lines n
      = ((List.enumFrom n lines).filter (fun p => lineMatches t p.2)).map
          (fun p => { line := p.2, lineNumber := p.1 + 1 }) := by
  induction lines generalizing n with
  | nil => rfl
  | cons l ls ih =>
    by_cases h : lineMatches t l <;>
      simp [scanLines, List.enumFrom, List.filter, h, ih]

theorem scanLines_length (t : Str) (lines : List Str) (n : Nat) :
    (scanLines t lines n).length = (lines.filter (lineMatches t)).length := by
  induction lines generalizing n with
  | nil => rfl
  | cons l ls ih =>
    by_cases h : lineMatches t l <;>
      simp [scanLines, List.filter, h, ih]

theorem scanLines_lineNumber_lt (t : Str) (lines : List Str) (n : Nat) :
    ∀ r ∈ scanLines t lines n, n < r.lineNumber := by
  induction lines generalizing n with
  | nil => simp [scanLines]
  | cons l ls ih =>
    intro r hr
    by_cases h : lineMatches t l
    · simp only [scanLines, if_pos h, List.mem_cons] at hr
      rcases hr with rfl | hr
      · exact Nat.lt_succ_self n
      · exact Nat.lt_of_succ_lt (ih (n + 1) r hr)
    · simp only [scanLines, if_neg h] at hr
      exact Nat.lt_of_succ_lt (ih (n + 1) r hr)

theorem scanLines_pairwise (t : Str) (lines : List Str) (n : Nat) :
    (scanLines t lines n).Pairwise (fun a b => a.lineNumber < b.lineNumber) := by
  induction lines generalizing n with
  | nil => simp [scanLines]
  | cons l ls ih =>
    by_cases h : lineMatches t l
    · simp only [scanLines, if_pos h]
      exact List.pairwise_cons.mpr ⟨fun r hr => scanLines_lineNumber_lt t ls (n + 1) r hr,
        ih (n + 1)⟩
    · simpa [scanLines, h] using ih (n + 1)

/-- Claim C1: for every file and search term, the scan produces exactly the
ordered sequence of match records `{line, lineNumber}` for the lines whose
lowercased content contains the lowercased normalized term as a substring,
with 1-based line numbers in strictly increasing file order, and the number
of records equals the number of such lines. -/
theorem spec_C1 (t : Str) (lines : List Str) :
    matchLines lines t
        = (lines.enum.filter (fun p => lineMatches (replaceFirstSpace t) p.2)).map
            (fun p => { line := p.2, lineNumber := p.1 + 1 })
      ∧ (matchLines lines t).length
          = (lines.filter (fun l => lineMatches (replaceFirstSpace t) l)).length
      ∧ (matchLines lines t).Pairwise (fun a b => a.lineNumber < b.lineNumber) := by
  refine ⟨?_, scanLines_length _ _ _, scanLines_pairwise _ _ _⟩
  simpa [List.enum] using scanLines_eq_enumFrom (replaceFirstSpace t) lines 0

/-! ### Helper lemmas about the pagination arithmetic -/

theorem ceilDiv_zero_left (S : Nat) (hS : 1 ≤ S) : ceilDiv 0 S = 0 := by
  unfold ceilDiv
  exact Nat.div_eq_of_lt (by omega)

theorem le_mul_ceilDiv (n S : Nat) (hS : 1 ≤ S) : n ≤ S * ceilDiv n S := by
  have h1 := Nat.div_add_mod (n + S - 1) S
  have h2 : (n + S - 1) % S < S := Nat.mod_lt _ (by omega)
  unfold ceilDiv
  generalize hq : (n + S - 1) / S = q at h1 ⊢
  generalize hr : (n + S - 1) % S = r at h1 h2
  generalize hm : S * q = m at h1 ⊢
  omega

theorem ceilDiv_pred_mul_lt (n S : Nat) (hn : 1 ≤ n) (hS : 1 ≤ S) :
    (ceilDiv n S - 1) * S < n := by
  have h1 := Nat.div_add_mod (n + S - 1) S
  have h2 : (n + S - 1) % S < S := Nat.mod_lt _ (by omega)
  unfold ceilDiv
  rw [Nat.sub_mul, one_mul, Nat.mul_comm]
  generalize hq : (n + S - 1) / S = q at h1 ⊢
  generalize hr : (n + S - 1) % S = r at h1 h2
  generalize hm : S * q = m at h1 ⊢
  omega

theorem ceilDiv_lt_imp_le (n S page : Nat) (hS : 1 ≤ S) (h : ceilDiv n S < page) :
    n ≤ (page - 1) * S := by
  have h4 : S * ceilDiv n S ≤ S * (page - 1) :=
    Nat.mul_le_mul_left _ (by omega)
  calc n ≤ S * ceilDiv n S := le_mul_ceilDiv n S hS
    _ ≤ S * (page - 1) := h4
    _ = (page - 1) * S := Nat.mul_comm _ _

/-- Claim C2: for every match list, page ≥ 1 and pageSize ≥ 1, the returned
results are the slice `matches[(page-1)*pageSize : (page-1)*pageSize + pageSize]`
of the full unfiltered match list in original line order; a page beyond the
last page yields an empty sequence rather than an error, and a pageSize
larger than totalResults yields the entire list on page 1. -/
theorem spec_C2 (lines : List Str) (t : Str) (page pageSize : Nat)
    (hp : 1 ≤ page) (hs : 1 ≤ pageSize) :
    (searchFileLines lines t page pageSize).results
        = (jsSlice (matchLines lines t)
            ((page - 1) * pageSize) ((page - 1) * pageSize + pageSize)).map formatRecord
      ∧ (ceilDiv (matchLines lines t).length pageSize < page →
          (searchFileLines lines t page pageSize).results = [])
      ∧ ((matchLines lines t).length < pageSize →
          (searchFileLines lines t 1 pageSize).results
            = (matchLines lines t).map formatRecord) := by
  refine ⟨rfl, fun h => ?_, fun h => ?_⟩
  · have hle : (matchLines lines t).length ≤ (page - 1) * pageSize :=
      ceilDiv_lt_imp_le _ _ _ hs h
    simp [searchFileLines, assemblePage, jsSlice, List.drop_eq_nil_of_le hle]
  · simp [searchFileLines, assemblePage, jsSlice,
      List.take_of_length_le (Nat.le_of_lt h)]

/-- Claim C3: every PageResult produced by a search satisfies
`totalPages = ceil(totalResults / pageSize)` (characterized by
`totalResults ≤ totalPages * pageSize` and, for positive `totalResults`,
`(totalPages - 1) * pageSize < totalResults`), `totalPages = 0` when
`totalResults = 0`, `hasNextPage = (page < totalPages)` and
`hasPreviousPage = (page > 1)`, for every `(page, pageSize)` combination
including a page beyond the last page. -/
theorem spec_C3 (lines : List Str) (t : Str) (page pageSize : Nat)
    (hs : 1 ≤ pageSize) :
    (searchFileLines lines t page pageSize).pagination.totalPages
        = ceilDiv (searchFileLines lines t page pageSize).pagination.totalResults
            pageSize
      ∧ (searchFileLines lines t page pageSize).pagination.totalResults
          ≤ (searchFileLines lines t page pageSize).pagination.totalPages * pageSize
      ∧ (0 < (searchFileLines lines t page pageSize).pagination.totalResults →
          ((searchFileLines lines t page pageSize).pagination.totalPages - 1) *
              pageSize
            < (searchFileLines lines t page pageSize).pagination.totalResults)
      ∧ ((searchFileLines lines t page pageSize).pagination.totalResults = 0 →
          (searchFileLines lines t page pageSize).pagination.totalPages = 0)
      ∧ (searchFileLines lines t page pageSize).pagination.hasNextPage
          = decide (page
              < (searchFileLines lines t page pageSize).pagination.totalPages)
      ∧ (searchFileLines lines t page pageSize).pagination.hasPreviousPage
          = decide (1 < page) := by
  refine ⟨rfl, ?_, fun h => ?_, fun h => ?_, rfl, rfl⟩
  · have := le_mul_ceilDiv (matchLines lines t).length pageSize hs
    simpa [searchFileLines, assemblePage, Nat.mul_comm] using this
  · have := ceilDiv_pred_mul_lt (matchLines lines t).length pageSize ?_ hs
    · simpa [searchFileLines, assemblePage] using this
    · simpa [searchFileLines, assemblePage] using h
  · have h0 : (matchLines lines t).length = 0 := by
      simpa [searchFileLines, assemblePage] using h
    simp [searchFileLines, assemblePage, h0, ceilDiv_zero_left pageSize hs]

/-! ### Helper lemmas about the formatter's whitespace split -/

theorem splitWs_ne_nil : ∀ s : Str, splitWs s ≠ [] := by
  intro s
  induction s with
  | nil => simp [splitWs]
  | cons c cs ih =>
    simp only [splitWs]
    cases h : splitWs cs with
    | nil => exact absurd h ih
    | cons p ps =>
      by_cases hc : isWsChar c
      · by_cases hh : headIsWs cs <;> simp [hc, hh, h]
      · simp [hc, h]

theorem headIsWs_any (cs : Str) (h : headIsWs cs = true) :
    cs.any isWsChar = true := by
  cases cs with
  | nil => simp [headIsWs] at h
  | cons d ds => simp only [headIsWs] at h; simp [List.any_cons, h]

theorem two_le_splitWs_length_iff (s : Str) :
    2 ≤ (splitWs s).length ↔ s.any isWsChar = true := by
  induction s with
  | nil => simp [splitWs]
  | cons c cs ih =>
    have hpos : 1 ≤ (splitWs cs).length :=
      List.length_pos.mpr (splitWs_ne_nil cs)
    by_cases hc : isWsChar c
    · simp only [List.any_cons, hc, Bool.true_or, iff_true]
      by_cases hh : headIsWs cs
      · have := ih.mpr (headIsWs_any cs hh)
        simpa [splitWs, hc, hh] using this
      · simp only [splitWs, hc, if_true, hh]
        simp only [Bool.false_eq_true, if_false, List.length_cons]
        omega
    · simp only [List.any_cons, hc, Bool.false_or]
      rw [← ih]
      simp only [splitWs, hc, if_false]
      cases h : splitWs cs with
      | nil => exact absurd h (splitWs_ne_nil cs)
      | cons p ps => simp [h]

/-- Claim C4 counterexample: on the line `" a b"` (leading space) the
whitespace-separated tokens are `"a"` and `"b"`, so the claim demands
`id = "a"`, `value = "b"`, `formatted = "a\tb"`; the code instead splits
JS-style into `["", "a", "b"]` and produces `id = ""`, `value = "a b"`,
`formatted = "\ta b"`. -/
theorem spec_C4_counterexample :
    wsTokens [' ', 'a', ' ', 'b'] = [['a'], ['b']]
      ∧ formatRecord { line := [' ', 'a', ' ', 'b'], lineNumber := 1 }
          = FormattedRecord.enriched { line := [' ', 'a', ' ', 'b'], lineNumber := 1 }
              [] ['a', ' ', 'b'] ['\t', 'a', ' ', 'b']
      ∧ formatRecord { line := [' ', 'a', ' ', 'b'], lineNumber := 1 }
          ≠ FormattedRecord.enriched { line := [' ', 'a', ' ', 'b'], lineNumber := 1 }
              ['a'] ['b'] ['a', '\t', 'b'] := by decide

/-- Claim C4 (amended): the formatter enriches a record exactly when its
line contains at least one whitespace character — equivalently, when the
JS-style split on whitespace runs (which keeps an empty first piece when the
line starts with whitespace and an empty last piece when it ends with one)
has 2 or more pieces.  Then `id` is the first split piece (possibly empty),
`value` the remaining pieces rejoined with single spaces, and
`formatted = id + TAB + value`.  A line with fewer than 2 split pieces — one
containing no whitespace at all — is passed through unchanged. -/
theorem spec_C4_fixed (r : MatchRecord) :
    ((∃ i v f, formatRecord r = FormattedRecord.enriched r i v f)
        ↔ r.line.any isWsChar = true)
      ∧ (∀ p rest, splitWs r.line = p :: rest → rest ≠ [] →
          formatRecord r
            = FormattedRecord.enriched r p (joinSpace rest)
                (p ++ '\t' :: joinSpace rest))
      ∧ (r.line.any isWsChar = false → formatRecord r = FormattedRecord.plain r) := by
  refine ⟨?_, ?_, ?_⟩
  · rw [← two_le_splitWs_length_iff]
    cases h : splitWs r.line with
    | nil => exact absurd h (splitWs_ne_nil r.line)
    | cons p ps =>
      cases ps with
      | nil =>
        simp only [formatRecord, h, List.length_cons, List.length_nil]
        constructor
        · rintro ⟨i, v, f, hf⟩; cases hf
        · omega
      | cons q rest =>
        simp only [formatRecord, h, List.length_cons]
        exact ⟨fun _ => by omega, fun _ => ⟨_, _, _, rfl⟩⟩
  · intro p rest hsp hne
    cases rest with
    | nil => exact absurd rfl hne
    | cons q rest' => simp [formatRecord, hsp, joinSpace]
  · intro h
    have hlen : ¬ 2 ≤ (splitWs r.line).length := by
      rw [two_le_splitWs_length_iff, h]; simp
    cases hs : splitWs r.line with
    | nil => exact absurd hs (splitWs_ne_nil r.line)
    | cons p ps =>
      cases ps with
      | nil => simp [formatRecord, hs]
      | cons q rest => rw [hs] at hlen; simp at hlen

/-- Claim C4 witness: the amended claim evaluated on the line `"a b"`. -/
theorem spec_C4_fixed_witness :
    ((∃ i v f,
        formatRecord { line := ['a', ' ', 'b'], lineNumber := 1 }
          = FormattedRecord.enriched { line := ['a', ' ', 'b'], lineNumber := 1 } i v f)
        ↔ ['a', ' ', 'b'].any isWsChar = true)
      ∧ (∀ p rest, splitWs ['a', ' ', 'b'] = p :: rest → rest ≠ [] →
          formatRecord { line := ['a', ' ', 'b'], lineNumber := 1 }
            = FormattedRecord.enriched { line := ['a', ' ', 'b'], lineNumber := 1 }
                p (joinSpace rest) (p ++ '\t' :: joinSpace rest))
      ∧ (['a', ' ', 'b'].any isWsChar = false →
          formatRecord { line := ['a', ' ', 'b'], lineNumber := 1 }
            = FormattedRecord.plain { line := ['a', ' ', 'b'], lineNumber := 1 }) :=
  spec_C4_fixed { line := ['a', ' ', 'b'], lineNumber := 1 }

/-- Claim C5 counterexample: a zero-match search at `page = 2` succeeds with
`results = []`, `totalResults = 0`, `totalPages = 0` — but
`hasPreviousPage = true`, not false as the claim demands of every
zero-match success. -/
theorem spec_C5_counterexample :
    searchFile (FileState.readable [['x']]) ['z'] 2 10
      = Except.ok
          { results := []
            pagination :=
              { page := 2, pageSize := 10, totalResults := 0, totalPages := 0,
                hasNextPage := false, hasPreviousPage := true } } := by rfl

/-- Claim C5 (amended): `searchFile` fails with `FileNotFound`, before any
scanning, exactly when the target path does not exist at call time — a
mid-scan read failure is the distinct `IOError`, never `FileNotFound`; when
the file exists and the scan succeeds with zero matches it returns a
normal, fully-formed `PageResult` — never an error — with `results = []`,
`totalResults = 0`, `totalPages = 0`, `hasNextPage = false`, and
`hasPreviousPage = false` when `page = 1` (for `page > 1` it is true,
reflecting the requested page). -/
theorem spec_C5_fixed (t : Str) (page pageSize : Nat) (lines : List Str)
    (hs : 1 ≤ pageSize) :
    searchFile FileState.missing t page pageSize
        = Except.error SearchError.fileNotFound
      ∧ searchFile FileState.readError t page pageSize
          = Except.error SearchError.ioError
      ∧ searchFile (FileState.readable lines) t page pageSize
          = Except.ok (searchFileLines lines t page pageSize)
      ∧ (matchLines lines t = [] →
          searchFile (FileState.readable lines) t 1 pageSize
            = Except.ok
                { results := []
                  pagination :=
                    { page := 1, pageSize := pageSize, totalResults := 0,
                      totalPages := 0, hasNextPage := false,
                      hasPreviousPage := false } })
      ∧ (matchLines lines t = [] →
          searchFile (FileState.readable lines) t page pageSize
            = Except.ok
                { results := []
                  pagination :=
                    { page := page, pageSize := pageSize, totalResults := 0,
                      totalPages := 0, hasNextPage := false,
                      hasPreviousPage := decide (1 < page) } }) := by
  refine ⟨rfl, rfl, rfl, fun h => ?_, fun h => ?_⟩ <;>
    simp [searchFile, searchFileLines, assemblePage, h, jsSlice,
      ceilDiv_zero_left pageSize hs]

/-- Claim C5 witness: the amended claim evaluated at a concrete zero-match
search (`pageSize = 1` satisfies the schema bound). -/
theorem spec_C5_fixed_witness :
    (1 : Nat) ≤ 1
      ∧ (searchFile FileState.missing ['z'] 2 1
            = Except.error SearchError.fileNotFound
          ∧ searchFile FileState.readError ['z'] 2 1
              = Except.error SearchError.ioError
          ∧ searchFile (FileState.readable [['x']]) ['z'] 2 1
              = Except.ok (searchFileLines [['x']] ['z'] 2 1)
          ∧ (matchLines [['x']] ['z'] = [] →
              searchFile (FileState.readable [['x']]) ['z'] 1 1
                = Except.ok
                    { results := []
                      pagination :=
                        { page := 1, pageSize := 1, totalResults := 0,
                          totalPages := 0, hasNextPage := false,
                          hasPreviousPage := false } })
          ∧ (matchLines [['x']] ['z'] = [] →
              searchFile (FileState.readable [['x']]) ['z'] 2 1
                = Except.ok
                    { results := []
                      pagination :=
                        { page := 2, pageSize := 1, totalResults := 0,
                          totalPages := 0, hasNextPage := false,
                          hasPreviousPage := decide (1 < 2) } })) :=
  ⟨by decide, spec_C5_fixed ['z'] 2 1 [['x']] (by decide)⟩

/-! ### Helper lemmas about the search-term normalization -/

theorem replaceFirstSpace_no_space : ∀ s : Str, ' ' ∉ s →
    replaceFirstSpace s = s := by
  intro s
  induction s with
  | nil => intro _; rfl
  | cons c cs ih =>
    intro hs
    have hc : ¬ c = ' ' := fun e => hs (by simp [e])
    have hcs : ' ' ∉ cs := fun h => hs (List.mem_cons_of_mem _ h)
    simp [replaceFirstSpace, hc, ih hcs]

theorem replaceFirstSpace_prepend (b : Str) : ∀ a : Str, ' ' ∉ a →
    replaceFirstSpace (a ++ ' ' :: b) = a ++ '_' :: b := by
  intro a
  induction a with
  | nil => intro _; simp [replaceFirstSpace]
  | cons c cs ih =>
    intro ha
    have hc : ¬ c = ' ' := fun e => ha (by simp [e])
    have hcs : ' ' ∉ cs := fun h => ha (List.mem_cons_of_mem _ h)
    simp [replaceFirstSpace, hc, ih hcs]

/-- Claim C6: normalization replaces only the first occurrence of a literal
space with an underscore; all later spaces of the term — in particular every
space of the suffix `b` below — are left unchanged, and a term with no space
is left as it is. -/
theorem spec_C6 (a b s : Str) (ha : ' ' ∉ a) (hs : ' ' ∉ s) :
    replaceFirstSpace (a ++ ' ' :: b) = a ++ '_' :: b
      ∧ replaceFirstSpace s = s :=
  ⟨replaceFirstSpace_prepend b a ha, replaceFirstSpace_no_space s hs⟩

/-- Claim C6 witness: `"d b c".replace(" ", "_") = "d_b c"` — the second
space survives — and `"q"` is unchanged. -/
theorem spec_C6_witness :
    ' ' ∉ ['d'] ∧ ' ' ∉ ['q']
      ∧ (replaceFirstSpace (['d'] ++ ' ' :: ['b', ' ', 'c'])
            = ['d'] ++ '_' :: ['b', ' ', 'c']
          ∧ replaceFirstSpace ['q'] = ['q']) :=
  ⟨by decide, by decide, spec_C6 ['d'] ['b', ' ', 'c'] ['q'] (by decide) (by decide)⟩

/-- Claim C7: the PageResult obtained by the spec's composition order —
format every match, then paginate the formatted list — equals the PageResult
the implementation produces by paginating the raw match list first and
formatting only the selected slice; in particular the two orders agree on
every search. -/
theorem spec_C7 (ms : List MatchRecord) (lines : List Str) (t : Str)
    (page pageSize : Nat) :
    paginate (ms.map formatRecord) page pageSize = assemblePage ms page pageSize
      ∧ paginate ((matchLines lines t).map formatRecord) page pageSize
          = searchFileLines lines t page pageSize := by
  have key : ∀ l : List MatchRecord,
      paginate (l.map formatRecord) page pageSize = assemblePage l page pageSize := by
    intro l
    unfold paginate assemblePage
    simp [jsSlice, List.map_take, List.map_drop, List.length_map]
  exact ⟨key ms, key (matchLines lines t)⟩

/-! ### Helper lemmas for the page partition property -/

theorem ceilDiv_pos_eq (m S : Nat) (hm : 1 ≤ m) (hS : 1 ≤ S) :
    ceilDiv m S = (m - 1) / S + 1 := by
  unfold ceilDiv
  have h : m + S - 1 = (m - 1) + S := by omega
  rw [h, Nat.add_div_right _ hS]

theorem ceilDiv_sub_eq (m S : Nat) (hm : 1 ≤ m) (hS : 1 ≤ S) :
    ceilDiv (m - S) S = (m - 1) / S := by
  by_cases h : m ≤ S
  · have h1 : m - S = 0 := by omega
    rw [h1, ceilDiv_zero_left S hS]
    exact (Nat.div_eq_of_lt (by omega)).symm
  · have h2 : 1 ≤ m - S := by omega
    rw [ceilDiv_pos_eq _ S h2 hS]
    have h3 : m - 1 = (m - S - 1) + S := by omega
    rw [h3, Nat.add_div_right _ hS]

theorem pages_flatten (S : Nat) (hS : 1 ≤ S) :
    ∀ n (l : List α), l.length ≤ n →
      ((List.range (ceilDiv l.length S)).map (fun i => pageSlice l (i + 1) S)).flatten
        = l := by
  intro n
  induction n with
  | zero =>
    intro l hl
    have h : l = [] := List.eq_nil_of_length_eq_zero (by omega)
    subst h
    simp [ceilDiv_zero_left S hS]
  | succ n ih =>
    intro l hl
    rcases eq_or_ne l [] with rfl | hne
    · simp [ceilDiv_zero_left S hS]
    · have hm : 1 ≤ l.length := List.length_pos.mpr hne
      have hdrop : (l.drop S).length = l.length - S := List.length_drop S l
      have hih := ih (l.drop S) (by rw [hdrop]; omega)
      rw [hdrop, ceilDiv_sub_eq l.length S hm hS] at hih
      rw [ceilDiv_pos_eq l.length S hm hS, List.range_succ_eq_map]
      simp only [List.map_cons, List.map_map, List.flatten_cons, Function.comp_def,
        Nat.succ_eq_add_one]
      have h1 : pageSlice l 1 S = l.take S := by
        simp [pageSlice, jsSlice]
      have h2 : (fun i => pageSlice l (i + 1 + 1) S)
          = fun i => pageSlice (l.drop S) (i + 1) S := by
        funext i
        unfold pageSlice jsSlice
        rw [List.drop_drop]
        have e1 : i + 1 + 1 - 1 = i + 1 := by omega
        have e2 : i + 1 - 1 = i := by omega
        rw [e1, e2, Nat.add_sub_cancel_left, Nat.add_sub_cancel_left]
        have e3 : S + i * S = (i + 1) * S := by ring
        rw [e3]
      rw [h1, h2, hih, List.take_append_drop]

theorem matchLines_nodup (lines : List Str) (t : Str) : (matchLines lines t).Nodup := by
  refine List.Pairwise.imp ?_ (scanLines_pairwise (replaceFirstSpace t) lines 0)
  intro a b hab e
  rw [e] at hab
  exact Nat.lt_irrefl _ hab

/-- Claim C8: for every non-empty match list of length N and page size
S ≥ 1, the slices of pages `p = 1 .. ceil(N/S)` concatenated in page order
equal the original match list in original order, their lengths sum to N, and
they are pairwise disjoint. -/
theorem spec_C8 (lines : List Str) (t : Str) (S : Nat) (hS : 1 ≤ S)
    (hne : matchLines lines t ≠ []) :
    ((List.range (ceilDiv (matchLines lines t).length S)).map
        (fun i => pageSlice (matchLines lines t) (i + 1) S)).flatten
        = matchLines lines t
      ∧ ((List.range (ceilDiv (matchLines lines t).length S)).map
          (fun i => (pageSlice (matchLines lines t) (i + 1) S).length)).sum
          = (matchLines lines t).length
      ∧ ((List.range (ceilDiv (matchLines lines t).length S)).map
          (fun i => pageSlice (matchLines lines t) (i + 1) S)).Pairwise
            List.Disjoint := by
  have hflat := pages_flatten S hS (matchLines lines t).length (matchLines lines t)
    (Nat.le_refl _)
  refine ⟨hflat, ?_, ?_⟩
  · have hlen := congrArg List.length hflat
    rw [List.length_flatten] at hlen
    simpa [List.map_map, Function.comp] using hlen
  · have hnd : ((List.range (ceilDiv (matchLines lines t).length S)).map
        (fun i => pageSlice (matchLines lines t) (i + 1) S)).flatten.Nodup := by
      rw [hflat]; exact matchLines_nodup lines t
    exact (List.nodup_flatten.mp hnd).2

/-- Claim C2 witness: the slice law evaluated on a concrete 2-match file at
`page = 2`, `pageSize = 1`. -/
theorem spec_C2_witness :
    (1 : Nat) ≤ 2 ∧ (1 : Nat) ≤ 1
      ∧ ((searchFileLines [['a'], ['b'], ['a']] ['a'] 2 1).results
            = (jsSlice (matchLines [['a'], ['b'], ['a']] ['a'])
                ((2 - 1) * 1) ((2 - 1) * 1 + 1)).map formatRecord
          ∧ (ceilDiv (matchLines [['a'], ['b'], ['a']] ['a']).length 1 < 2 →
              (searchFileLines [['a'], ['b'], ['a']] ['a'] 2 1).results = [])
          ∧ ((matchLines [['a'], ['b'], ['a']] ['a']).length < 1 →
              (searchFileLines [['a'], ['b'], ['a']] ['a'] 1 1).results
                = (matchLines [['a'], ['b'], ['a']] ['a']).map formatRecord)) :=
  ⟨by decide, by decide, spec_C2 [['a'], ['b'], ['a']] ['a'] 2 1 (by decide) (by decide)⟩

/-- Claim C3 witness: the pagination invariants evaluated on a concrete
2-match file at a page beyond the last page. -/
theorem spec_C3_witness :
    (1 : Nat) ≤ 2
      ∧ ((searchFileLines [['a'], ['b'], ['a']] ['a'] 5 2).pagination.totalPages
            = ceilDiv
                (searchFileLines [['a'], ['b'], ['a']] ['a'] 5 2).pagination.totalResults
                2
          ∧ (searchFileLines [['a'], ['b'], ['a']] ['a'] 5 2).pagination.totalResults
              ≤ (searchFileLines [['a'], ['b'], ['a']] ['a'] 5 2).pagination.totalPages * 2
          ∧ (0 < (searchFileLines [['a'], ['b'], ['a']] ['a'] 5 2).pagination.totalResults →
              ((searchFileLines [['a'], ['b'], ['a']] ['a'] 5 2).pagination.totalPages - 1)
                  * 2
                < (searchFileLines [['a'], ['b'], ['a']] ['a'] 5 2).pagination.totalResults)
          ∧ ((searchFileLines [['a'], ['b'], ['a']] ['a'] 5 2).pagination.totalResults = 0 →
              (searchFileLines [['a'], ['b'], ['a']] ['a'] 5 2).pagination.totalPages = 0)
          ∧ (searchFileLines [['a'], ['b'], ['a']] ['a'] 5 2).pagination.hasNextPage
              = decide (5
                  < (searchFileLines [['a'], ['b'], ['a']] ['a'] 5 2).pagination.totalPages)
          ∧ (searchFileLines [['a'], ['b'], ['a']] ['a'] 5 2).pagination.hasPreviousPage
              = decide (1 < 5)) :=
  ⟨by decide, spec_C3 [['a'], ['b'], ['a']] ['a'] 5 2 (by decide)⟩

/-- Claim C8 witness: the partition property evaluated on a concrete
3-match list with page size 2 (two pages, lengths 2 and 1). -/
theorem spec_C8_witness :
    (1 : Nat) ≤ 2
      ∧ matchLines [['a'], ['a'], ['a']] ['a'] ≠ []
      ∧ (((List.range (ceilDiv (matchLines [['a'], ['a'], ['a']] ['a']).length 2)).map
            (fun i => pageSlice (matchLines [['a'], ['a'], ['a']] ['a']) (i + 1) 2)).flatten
            = matchLines [['a'], ['a'], ['a']] ['a']
          ∧ ((List.range (ceilDiv (matchLines [['a'], ['a'], ['a']] ['a']).length 2)).map
              (fun i =>
                (pageSlice (matchLines [['a'], ['a'], ['a']] ['a']) (i + 1) 2).length)).sum
              = (matchLines [['a'], ['a'], ['a']] ['a']).length
          ∧ ((List.range (ceilDiv (matchLines [['a'], ['a'], ['a']] ['a']).length 2)).map
              (fun i => pageSlice (matchLines [['a'], ['a'], ['a']] ['a']) (i + 1) 2)).Pairwise
                List.Disjoint) :=
  ⟨by decide, by decide, spec_C8 [['a'], ['a'], ['a']] ['a'] 2 (by decide) (by decide)⟩

/-! ### Helper lemmas for the empty-term and line-count claims -/

theorem containsStr_nil (s : Str) : containsStr [] s = true := by
  cases s <;> simp [containsStr, startsWithStr]

theorem lineMatches_nil (l : Str) : lineMatches [] l = true := by
  simp [lineMatches, toLowerStr, containsStr_nil]

/-- Claim C9: the empty search term — accepted by the argument schema, whose
`query` field is validated only as a string with no minimum length — matches
every line of the file, so the search reports `totalResults` equal to the
total number of lines. -/
theorem spec_C9 (lines : List Str) (page pageSize : Nat) :
    lines.all (fun l => lineMatches (replaceFirstSpace []) l) = true
      ∧ (searchFileLines lines [] page pageSize).pagination.totalResults
          = lines.length := by
  have hall : ∀ l, lineMatches (replaceFirstSpace []) l = true := fun l => by
    simpa [replaceFirstSpace] using lineMatches_nil l
  constructor
  · exact List.all_eq_true.mpr fun l _ => hall l
  · show (matchLines lines []).length = lines.length
    have hf : lines.filter (lineMatches (replaceFirstSpace [])) = lines :=
      List.filter_eq_self.mpr fun a _ => hall a
    calc (matchLines lines []).length
        = (lines.filter (lineMatches (replaceFirstSpace []))).length :=
          scanLines_length (replaceFirstSpace []) lines 0
      _ = lines.length := by rw [hf]

theorem splitNl_ne_nil : ∀ s : Str, splitNl s ≠ [] := by
  intro s
  induction s with
  | nil => simp [splitNl]
  | cons c cs ih =>
    simp only [splitNl]
    cases h : splitNl cs with
    | nil => exact absurd h ih
    | cons p ps => by_cases hc : c = '\n' <;> simp [hc, h]

theorem splitNl_length (s : Str) : (splitNl s).length = s.count '\n' + 1 := by
  induction s with
  | nil => simp [splitNl]
  | cons c cs ih =>
    by_cases hc : c = '\n'
    · subst hc
      simp [splitNl, List.count_cons, ih]
    · cases h : splitNl cs with
      | nil => exact absurd h (splitNl_ne_nil cs)
      | cons p ps =>
        rw [h] at ih
        simp only [splitNl, if_neg hc, h, List.length_cons] at ih ⊢
        rw [List.count_cons]
        simp [hc, ih]

/-- Claim C10: for every readable file, the `lineCount` reported by
`get_file_details` equals the number of newline characters in the file plus
one; in particular an empty file reports `lineCount = 1`, and appending a
trailing newline adds one more counted line (the trailing empty segment). -/
theorem spec_C10 (content : Str) :
    getFileDetails (some content) = some (content.count '\n' + 1)
      ∧ getFileLineCount [] = 1
      ∧ getFileLineCount (content ++ ['\n']) = getFileLineCount content + 1 := by
  refine ⟨?_, rfl, ?_⟩
  · simp [getFileDetails, getFileLineCount, splitNl_length]
  · rw [getFileLineCount, getFileLineCount, splitNl_length, splitNl_length,
      List.count_append]
    simp [List.count_cons]
